import Mathlib

/-!
Shallow embedding of the TextToSpeech component of this repository.
The component appears twice in the sources: a standalone file and a
variant embedded in src/src/App.tsx. Both share the same grouping,
default-selection, language-change, voice-change, rate and pitch, speak
and stopSpeaking logic; the App.tsx variant additionally keeps an
apiError field and records error messages, and that variant is the one
embedded here (its extra field is irrelevant to the shared logic).
-/

/-- A voice descriptor as exposed by the speech capability, the Voice
interface of the source. -/
structure Voice where
  name : String
  lang : String
  localService : Bool
  default : Bool
  voiceURI : String
deriving DecidableEq

/-- Component state: the useState fields of TextToSpeech. The language
map is modelled as an association list in insertion order, which matches
the iteration order of a JS object whose keys are non-numeric strings;
every key built by the grouping loop has the form "name (code)" and is
therefore non-numeric. The isMobile field of the App.tsx variant is
presentational and omitted. -/
structure TTSState where
  text : String
  voices : List Voice
  selectedVoice : String
  rate : Rat
  pitch : Rat
  languages : List (String × List Voice)
  selectedLanguage : String
  isSpeaking : Bool
  loadingVoices : Bool
  apiError : Option String
deriving DecidableEq

/-- The useState initial values of the component. -/
def initState : TTSState :=
  { text := "Hello! This is a text-to-speech converter. You can type any text here and have it spoken in different languages and voices."
    voices := []
    selectedVoice := ""
    rate := 1
    pitch := 1
    languages := []
    selectedLanguage := ""
    isSpeaking := false
    loadingVoices := true
    apiError := none }

/-- js: voice.lang.split on the hyphen, index 0 — the text of the
language tag before the first hyphen, case preserved. -/
def langCode (lang : String) : String :=
  String.mk (lang.data.takeWhile (fun c => c ≠ '-'))

/-- js: new Intl.DisplayNames of the code, with fallback to the code.
The display-name resolver is an external platform service and is passed
as the parameter dn; the JS or-operator also falls back when the
resolver yields an empty string, since that string is falsy. -/
def langDisplay (dn : String → Option String) (code : String) : String :=
  match dn code with
  | none => code
  | some s => if s = "" then code else s

/-- js: the template literal building langKey, display name followed by
the code in parentheses. -/
def langKey (dn : String → Option String) (v : Voice) : String :=
  langDisplay dn (langCode v.lang) ++ " (" ++ langCode v.lang ++ ")"

/-- js object lookup langGroups[k], yielding the group when the key is
present; an absent key is modelled by the empty list, matching the code,
which only ever reads a group after checking presence or a positive
length. -/
def lookupG : List (String × List Voice) → String → List Voice
  | [], _ => []
  | (k, g) :: rest, k2 => if k = k2 then g else lookupG rest k2

/-- Key-presence test on the association list. -/
def hasKey : List (String × List Voice) → String → Bool
  | [], _ => false
  | (k, _) :: rest, k2 => k == k2 || hasKey rest k2

/-- One step of the grouping loop: when the key is absent a new group is
created, placed at the end as js object insertion order dictates,
otherwise the voice is pushed onto the existing group. -/
def insertVoice : List (String × List Voice) → String → Voice → List (String × List Voice)
  | [], k, v => [(k, [v])]
  | (k2, g) :: rest, k, v =>
      if k2 = k then (k2, g ++ [v]) :: rest
      else (k2, g) :: insertVoice rest k v

/-- js: the forEach loop of loadVoices building langGroups. -/
def groupVoices (dn : String → Option String) (vs : List Voice) :
    List (String × List Voice) :=
  vs.foldl (fun gs v => insertVoice gs (langKey dn v) v) []

/-- Error message set by the loadVoices closure of the App.tsx variant
when a read comes back empty after loading has already finished. -/
def noVoicesMsg : String :=
  "No voices detected. This may be due to browser restrictions on mobile."

/-- Error message set by the fallback timeout of the App.tsx variant. -/
def timeoutMsg : String :=
  "Unable to load voices. This may be due to browser restrictions."

/-- The loadVoices closure. The parameter available models the snapshot
returned by getVoices; loadingVoices0 is the stale loadingVoices value the
closure captured when the mount effect created it (true at mount, and the
mount effect runs exactly once). On a non-empty read the catalog is
rebuilt wholesale and the default language and voice are chosen; on an
empty read nothing changes except, possibly, the error message. -/
def loadVoices (dn : String → Option String) (loadingVoices0 : Bool)
    (available : List Voice) (s : TTSState) : TTSState :=
  if 0 < available.length then
    let langGroups := groupVoices dn available
    let s1 := { s with loadingVoices := false, voices := available,
                       languages := langGroups }
    let s2 :=
      match langGroups with
      | [] => s1
      | (defaultLang, _) :: _ =>
        let s3 := { s1 with selectedLanguage := defaultLang }
        match lookupG langGroups defaultLang with
        | [] => s3
        | v :: _ => { s3 with selectedVoice := v.name }
    { s2 with apiError := none }
  else
    if loadingVoices0 = false then { s with apiError := some noVoicesMsg }
    else s

/-- The setTimeout handler registered by the mount effect. voices0 and
apiError0 are the stale voices and apiError values captured at mount;
available models what getVoices returns when the handler re-runs
loadVoices. The JS falsiness test on apiError0 also treats an empty
message as absent. -/
def timeoutHandler (dn : String → Option String) (loadingVoices0 : Bool)
    (voices0 : List Voice) (apiError0 : Option String)
    (available : List Voice) (s : TTSState) : TTSState :=
  let s1 := if voices0.length = 0 then loadVoices dn loadingVoices0 available s else s
  if voices0.length = 0 then
    let s2 := { s1 with loadingVoices := false }
    if apiError0 = none ∨ apiError0 = some "" then { s2 with apiError := some timeoutMsg }
    else s2
  else s1

/-- The useEffect on selectedLanguage and languages: when a language is
selected (non-empty, since JS tests truthiness) and its group exists and
is non-empty, the selected voice becomes the first voice of the group. -/
def languageEffect (s : TTSState) : TTSState :=
  if s.selectedLanguage ≠ "" then
    match lookupG s.languages s.selectedLanguage with
    | [] => s
    | v :: _ => { s with selectedVoice := v.name }
  else s

/-- setSelectedLanguage from the language select onChange, followed by
the effect that runs once the state update is flushed. -/
def setLanguage (s : TTSState) (lang : String) : TTSState :=
  languageEffect { s with selectedLanguage := lang }

/-- setSelectedVoice from the voice select onChange: an unconditional
state update, with no validation in the handler. -/
def setVoiceFromInput (s : TTSState) (n : String) : TTSState :=
  { s with selectedVoice := n }

/-- The option values offered by the voice select element: the names of
the currently selected group. In the loading branch and in the branch
with no selected language or no group, only placeholder options are
rendered, which are not voice selections and are modelled as the empty
list. -/
def voiceOptions (s : TTSState) : List String :=
  if s.loadingVoices then []
  else if s.selectedLanguage ≠ "" ∧ hasKey s.languages s.selectedLanguage then
    (lookupG s.languages s.selectedLanguage).map Voice.name
  else []

/-- The min attribute of the rate slider. -/
def rateMin : Rat := 1/2

/-- The max attribute of the rate slider. -/
def rateMax : Rat := 2

/-- The min attribute of the pitch slider. -/
def pitchMin : Rat := 1/2

/-- The max attribute of the pitch slider. -/
def pitchMax : Rat := 2

/-- The rate slider onChange handler: setRate of the parsed value,
stored as is. -/
def setRateFromInput (s : TTSState) (x : Rat) : TTSState := { s with rate := x }

/-- The pitch slider onChange handler: setPitch of the parsed value,
stored as is. -/
def setPitchFromInput (s : TTSState) (x : Rat) : TTSState := { s with pitch := x }

/-- The disabled condition of the Speak button: empty text, or voices
still loading, or no selected voice. -/
def speakButtonDisabled (s : TTSState) : Bool :=
  s.text == "" || s.loadingVoices || s.selectedVoice == ""

/-- One utterance request: text, optional voice reference, rate and
pitch, as built in speak. -/
structure Utterance where
  text : String
  voice : Option Voice
  rate : Rat
  pitch : Rat
deriving DecidableEq

/-- Calls issued to the speech capability. -/
inductive SynthEvent where
  | cancel : SynthEvent
  | speakReq : Utterance → SynthEvent
deriving DecidableEq

/-- Model of the speech capability: the utterances submitted and not yet
finished or cancelled; the speaking flag reports whether any is live. -/
structure SynthState where
  pending : List Utterance
deriving DecidableEq

/-- synth.speaking in the model: some submitted utterance is live. -/
def SynthState.speaking (st : SynthState) : Bool := !st.pending.isEmpty

/-- synth.cancel: drops every pending utterance. -/
def synthCancel (_st : SynthState) : SynthState := ⟨[]⟩

/-- synth.speak: enqueues one utterance. -/
def synthSubmit (st : SynthState) (u : Utterance) : SynthState := ⟨st.pending ++ [u]⟩

/-- Component state together with synth.current, which is none when the
speech capability reference is absent. -/
structure FullState where
  comp : TTSState
  synth : Option SynthState
deriving DecidableEq

/-- The utterance built in speak: the current text, the voice found by
name in the flat voices list (none when the name matches no descriptor,
leaving the platform default), and the current rate and pitch. -/
def mkUtterance (s : TTSState) : Utterance :=
  { text := s.text
    voice := s.voices.find? (fun v => v.name == s.selectedVoice)
    rate := s.rate
    pitch := s.pitch }

/-- The speak handler: guarded by synth.current and non-empty text; when
the capability reports it is speaking a cancel is issued first, then the
new utterance is submitted; apiError is cleared at the end of the
successful path. The second component lists the calls issued to the
capability, in order. -/
def speak (fs : FullState) : FullState × List SynthEvent :=
  match fs.synth with
  | none => (fs, [])
  | some st =>
    if fs.comp.text ≠ "" then
      let cpre : List SynthEvent := if st.speaking then [SynthEvent.cancel] else []
      let st1 := if st.speaking then synthCancel st else st
      let u := mkUtterance fs.comp
      ({ comp := { fs.comp with apiError := none }, synth := some (synthSubmit st1 u) },
        cpre ++ [SynthEvent.speakReq u])
    else (fs, [])

/-- The stopSpeaking handler: guarded by synth.current; cancel, then
setIsSpeaking false, without waiting for any callback. -/
def stopSpeaking (fs : FullState) : FullState × List SynthEvent :=
  match fs.synth with
  | none => (fs, [])
  | some st =>
    ({ comp := { fs.comp with isSpeaking := false }, synth := some (synthCancel st) },
      [SynthEvent.cancel])

/-- A display-name resolver that never resolves, forcing the fallback. -/
def dnNone : String → Option String := fun _ => none

/-- A sample english voice. -/
def aliceV : Voice :=
  { name := "Alice", lang := "en-US", localService := true, default := true,
    voiceURI := "alice" }

/-- A sample french voice. -/
def claireV : Voice :=
  { name := "Claire", lang := "fr-FR", localService := true, default := false,
    voiceURI := "claire" }

/-! Lemmas about the grouping loop. -/

theorem lookupG_insertVoice (gs : List (String × List Voice)) (k k2 : String) (v : Voice) :
    lookupG (insertVoice gs k v) k2 =
      if k = k2 then lookupG gs k2 ++ [v] else lookupG gs k2 := by
  induction gs with
  | nil =>
    by_cases h : k = k2 <;> simp [insertVoice, lookupG, h]
  | cons p rest ih =>
    obtain ⟨a, g⟩ := p
    by_cases hak : a = k
    · subst hak
      by_cases h2 : a = k2 <;> simp [insertVoice, lookupG, h2]
    · by_cases h2 : a = k2
      · subst h2
        have hk2 : k ≠ a := fun h => hak h.symm
        simp [insertVoice, lookupG, hak, hk2]
      · simp [insertVoice, lookupG, hak, h2, ih]

theorem lookupG_foldl (dn : String → Option String) (vs : List Voice)
    (gs : List (String × List Voice)) (k : String) :
    lookupG (vs.foldl (fun acc v => insertVoice acc (langKey dn v) v) gs) k =
      lookupG gs k ++ vs.filter (fun v => langKey dn v == k) := by
  induction vs generalizing gs with
  | nil => simp
  | cons v vs ih =>
    simp only [List.foldl_cons, List.filter_cons]
    rw [ih, lookupG_insertVoice]
    by_cases h : langKey dn v = k <;> simp [h]

/-- The group stored under any key is exactly the sublist of input voices
whose langKey is that key, kept in input order. -/
theorem lookupG_groupVoices (dn : String → Option String) (vs : List Voice) (k : String) :
    lookupG (groupVoices dn vs) k = vs.filter (fun v => langKey dn v == k) := by
  simpa [lookupG] using lookupG_foldl dn vs [] k

theorem mem_keys_insertVoice (gs : List (String × List Voice)) (k x : String) (v : Voice) :
    x ∈ (insertVoice gs k v).map Prod.fst ↔ x ∈ gs.map Prod.fst ∨ x = k := by
  induction gs with
  | nil => simp [insertVoice]
  | cons p rest ih =>
    obtain ⟨a, g⟩ := p
    by_cases hak : a = k
    · subst hak
      simp [insertVoice]
      tauto
    · simp [insertVoice, hak, ih]
      tauto

theorem keys_nodup_insertVoice (gs : List (String × List Voice)) (k : String) (v : Voice)
    (h : (gs.map Prod.fst).Nodup) : ((insertVoice gs k v).map Prod.fst).Nodup := by
  induction gs with
  | nil => simp [insertVoice]
  | cons p rest ih =>
    obtain ⟨a, g⟩ := p
    simp only [List.map_cons, List.nodup_cons] at h
    by_cases hak : a = k
    · subst hak
      simpa [insertVoice, List.nodup_cons] using h
    · simp only [insertVoice, if_neg hak, List.map_cons, List.nodup_cons]
      refine ⟨?_, ih h.2⟩
      rw [mem_keys_insertVoice]
      rintro (hm | rfl)
      · exact h.1 hm
      · exact hak rfl

theorem keys_nodup_foldl (dn : String → Option String) (vs : List Voice)
    (gs : List (String × List Voice)) (h : (gs.map Prod.fst).Nodup) :
    ((vs.foldl (fun acc v => insertVoice acc (langKey dn v) v) gs).map Prod.fst).Nodup := by
  induction vs generalizing gs with
  | nil => simpa
  | cons v vs ih => exact ih _ (keys_nodup_insertVoice _ _ _ h)

theorem mem_keys_foldl (dn : String → Option String) (vs : List Voice)
    (gs : List (String × List Voice)) (x : String) :
    x ∈ (vs.foldl (fun acc v => insertVoice acc (langKey dn v) v) gs).map Prod.fst ↔
      x ∈ gs.map Prod.fst ∨ ∃ v ∈ vs, langKey dn v = x := by
  induction vs generalizing gs with
  | nil => simp
  | cons v vs ih =>
    simp only [List.foldl_cons, ih, mem_keys_insertVoice, List.mem_cons]
    constructor
    · rintro (⟨hm | rfl⟩ | ⟨w, hw, hkw⟩)
      · exact Or.inl hm
      · exact Or.inr ⟨v, Or.inl rfl, rfl⟩
      · exact Or.inr ⟨w, Or.inr hw, hkw⟩
    · rintro (hm | ⟨w, hw | hw, hkw⟩)
      · exact Or.inl (Or.inl hm)
      · subst hw
        exact Or.inl (Or.inr hkw.symm)
      · exact Or.inr ⟨w, hw, hkw⟩

/-- The keys of the catalog are exactly the langKeys of the input. -/
theorem mem_keys_groupVoices (dn : String → Option String) (vs : List Voice) (x : String) :
    x ∈ (groupVoices dn vs).map Prod.fst ↔ ∃ v ∈ vs, langKey dn v = x := by
  simpa [groupVoices] using mem_keys_foldl dn vs [] x

/-- Claim C1: the grouping loop partitions the voice list. The keys of
the resulting catalog are distinct and are exactly the langKeys of the
input voices, where langKey is the resolved display name, falling back to
the primary subtag, followed by the subtag in parentheses, the subtag
being the text before the first hyphen of the language tag with case
preserved; and the group under any key holds exactly the input voices
whose langKey is that key, in input order, so every voice lands in
exactly one group. -/
theorem groupVoices_partitions (dn : String → Option String) (vs : List Voice) :
    ((groupVoices dn vs).map Prod.fst).Nodup ∧
    (∀ k, lookupG (groupVoices dn vs) k = vs.filter (fun v => langKey dn v == k)) ∧
    (∀ k, k ∈ (groupVoices dn vs).map Prod.fst ↔ ∃ v ∈ vs, langKey dn v = k) :=
  ⟨keys_nodup_foldl dn vs [] (by simp),
    fun k => lookupG_groupVoices dn vs k,
    fun k => mem_keys_groupVoices dn vs k⟩

/-! Lemmas for the default-selection behaviour of loadVoices. -/

theorem insertVoice_ne_nil (gs : List (String × List Voice)) (k : String) (v : Voice) :
    insertVoice gs k v ≠ [] := by
  cases gs with
  | nil => simp [insertVoice]
  | cons p rest =>
    obtain ⟨a, g⟩ := p
    by_cases hak : a = k <;> simp [insertVoice, hak]

theorem foldl_insertVoice_ne_nil (dn : String → Option String) (vs : List Voice)
    (gs : List (String × List Voice)) (h : gs ≠ []) :
    vs.foldl (fun acc v => insertVoice acc (langKey dn v) v) gs ≠ [] := by
  induction vs generalizing gs with
  | nil => simpa
  | cons v vs ih => exact ih _ (insertVoice_ne_nil _ _ _)

/-- A non-empty voice list yields a non-empty catalog. -/
theorem groupVoices_ne_nil (dn : String → Option String) (vs : List Voice)
    (h : vs ≠ []) : groupVoices dn vs ≠ [] := by
  cases vs with
  | nil => exact absurd rfl h
  | cons v vs =>
    simp only [groupVoices, List.foldl_cons]
    exact foldl_insertVoice_ne_nil dn vs _ (insertVoice_ne_nil _ _ _)

theorem snd_ne_nil_insertVoice (gs : List (String × List Voice)) (k : String) (v : Voice)
    (h : ∀ p ∈ gs, p.2 ≠ []) : ∀ p ∈ insertVoice gs k v, p.2 ≠ [] := by
  induction gs with
  | nil => simp [insertVoice]
  | cons q rest ih =>
    obtain ⟨a, g⟩ := q
    simp only [List.mem_cons, forall_eq_or_imp] at h
    intro p hp
    by_cases hak : a = k
    · simp only [insertVoice, if_pos hak, List.mem_cons] at hp
      rcases hp with rfl | hp
      · simp
      · exact h.2 p hp
    · simp only [insertVoice, if_neg hak, List.mem_cons] at hp
      rcases hp with rfl | hp
      · exact h.1
      · exact ih h.2 p hp

theorem snd_ne_nil_foldl (dn : String → Option String) (vs : List Voice)
    (gs : List (String × List Voice)) (h : ∀ p ∈ gs, p.2 ≠ []) :
    ∀ p ∈ vs.foldl (fun acc v => insertVoice acc (langKey dn v) v) gs, p.2 ≠ [] := by
  induction vs generalizing gs with
  | nil => exact h
  | cons v vs ih => exact ih _ (snd_ne_nil_insertVoice _ _ _ h)

/-- Every group of the catalog is non-empty. -/
theorem snd_ne_nil_groupVoices (dn : String → Option String) (vs : List Voice) :
    ∀ p ∈ groupVoices dn vs, p.2 ≠ [] :=
  snd_ne_nil_foldl dn vs [] (by simp)

/-- A state with the french group selected, as left by an earlier load
of the same two voices followed by a language change. -/
def frSelectedState : TTSState :=
  { initState with
      loadingVoices := false,
      languages := groupVoices dnNone [aliceV, claireV],
      selectedLanguage := "fr (fr)",
      selectedVoice := "Claire" }

/-- Claim C2 counterexample: starting from a state whose selected
language key is present in the catalog that a new non-empty read
rebuilds, and is not its first key, loadVoices still resets the
selection to the first key instead of preserving it. -/
theorem loadVoices_resets_despite_existing_key :
    hasKey (groupVoices dnNone [aliceV, claireV]) ("fr (fr)") = true ∧
    frSelectedState.selectedLanguage = "fr (fr)" ∧
    (loadVoices dnNone true [aliceV, claireV] frSelectedState).selectedLanguage
      ≠ "fr (fr)" := by
  refine ⟨by decide, rfl, by decide⟩

/-- Claim C2 (amended): every successful non-empty voice read rebuilds
the catalog wholesale and unconditionally resets the selected language
to the first key of the new catalog and the selected voice to the first
voice of that group, regardless of any previously selected key; loading
is cleared. -/
theorem loadVoices_resets_to_first (dn : String → Option String) (b : Bool)
    (available : List Voice) (s : TTSState) (h : available ≠ []) :
    ∃ k v g rest, groupVoices dn available = (k, v :: g) :: rest ∧
      (loadVoices dn b available s).selectedLanguage = k ∧
      (loadVoices dn b available s).selectedVoice = v.name ∧
      (loadVoices dn b available s).languages = groupVoices dn available ∧
      (loadVoices dn b available s).loadingVoices = false := by
  obtain ⟨p, rest, hcat⟩ := List.exists_cons_of_ne_nil (groupVoices_ne_nil dn available h)
  obtain ⟨k, g⟩ := p
  have hg : g ≠ [] := by
    have := snd_ne_nil_groupVoices dn available (k, g) (by rw [hcat]; simp)
    simpa using this
  obtain ⟨v, g2, rfl⟩ := List.exists_cons_of_ne_nil hg
  refine ⟨k, v, g2, rest, hcat, ?_, ?_, ?_, ?_⟩ <;>
    simp [loadVoices, List.length_pos.mpr h, hcat, lookupG]

/-- Witness for the amended claim C2 at a concrete input. -/
theorem loadVoices_resets_to_first_witness :
    ([aliceV, claireV] ≠ ([] : List Voice)) ∧
    (∃ k v g rest, groupVoices dnNone [aliceV, claireV] = (k, v :: g) :: rest ∧
      (loadVoices dnNone true [aliceV, claireV] initState).selectedLanguage = k ∧
      (loadVoices dnNone true [aliceV, claireV] initState).selectedVoice = v.name ∧
      (loadVoices dnNone true [aliceV, claireV] initState).languages
        = groupVoices dnNone [aliceV, claireV] ∧
      (loadVoices dnNone true [aliceV, claireV] initState).loadingVoices = false) :=
  ⟨by decide, loadVoices_resets_to_first dnNone true [aliceV, claireV] initState (by decide)⟩

/-! Language change: claim C3. -/

/-- No key produced by the grouping loop is the empty string, since every
key ends in a closing parenthesis; JS truthiness of such a key therefore
never blocks the language-change effect. -/
theorem langKey_ne_empty (dn : String → Option String) (v : Voice) :
    langKey dn v ≠ "" := by
  unfold langKey
  intro h
  have h2 := congrArg String.length h
  rw [String.length_append, String.length_append, String.length_append] at h2
  have h3 : (")" : String).length = 1 := rfl
  have h4 : ("" : String).length = 0 := rfl
  rw [h3, h4] at h2
  omega

theorem lookupG_ne_nil_mem_keys (gs : List (String × List Voice)) (k : String)
    (h : lookupG gs k ≠ []) : k ∈ gs.map Prod.fst := by
  induction gs with
  | nil => simp [lookupG] at h
  | cons p rest ih =>
    obtain ⟨a, g⟩ := p
    by_cases hak : a = k
    · simp [hak]
    · simp only [lookupG, if_neg hak] at h
      simp [ih h]

/-- Claim C3: over any catalog produced by the grouping function, setting
the selected language to a key present with a non-empty group resets the
selected voice to the name of the first voice of that group. -/
theorem setLanguage_resets_voice (dn : String → Option String) (vs : List Voice)
    (s : TTSState) (k : String) (v : Voice) (g : List Voice)
    (hk : lookupG (groupVoices dn vs) k = v :: g) :
    (setLanguage { s with languages := groupVoices dn vs } k).selectedVoice = v.name := by
  have hkm : k ∈ (groupVoices dn vs).map Prod.fst :=
    lookupG_ne_nil_mem_keys _ _ (by simp [hk])
  obtain ⟨v0, _, hv0⟩ := (mem_keys_groupVoices dn vs k).mp hkm
  have hkne : k ≠ "" := hv0 ▸ langKey_ne_empty dn v0
  simp [setLanguage, languageEffect, hkne, hk]

/-- Witness for claim C3 at a concrete input. -/
theorem setLanguage_resets_voice_witness :
    lookupG (groupVoices dnNone [aliceV]) ("en (en)") = [aliceV] ∧
    (setLanguage { initState with languages := groupVoices dnNone [aliceV] }
      ("en (en)")).selectedVoice = "Alice" :=
  ⟨by decide,
    setLanguage_resets_voice dnNone [aliceV] initState ("en (en)") aliceV [] (by decide)⟩

/-! Voice change: claim C4. -/

/-- A state with the english group selected, Alice being its only voice. -/
def enSelectedState : TTSState :=
  { initState with
      loadingVoices := false,
      languages := groupVoices dnNone [aliceV],
      selectedLanguage := "en (en)",
      selectedVoice := "Alice" }

/-- Claim C4 counterexample: the voice onChange handler performs no
validation, so a name absent from the currently selected group replaces
the previous selection instead of being rejected and left unchanged. -/
theorem setVoice_not_rejected :
    (("Bob" : String) ∉
      (lookupG enSelectedState.languages enSelectedState.selectedLanguage).map Voice.name) ∧
    (setVoiceFromInput enSelectedState ("Bob")).selectedVoice ≠
      enSelectedState.selectedVoice := by
  refine ⟨by decide, by decide⟩

theorem mem_voiceOptions_eq (s : TTSState) (n : String) (hn : n ∈ voiceOptions s) :
    voiceOptions s = (lookupG s.languages s.selectedLanguage).map Voice.name := by
  unfold voiceOptions at *
  split_ifs at hn ⊢ <;> simp_all

/-- Claim C4 (amended): the voice change handler stores the given name
unconditionally, without validation; the restriction lives in the UI,
whose voice select offers exactly the names of the currently selected
group as option values, so a selection among the offered options keeps
the invariant that the selected voice names a member of the selected
group. -/
theorem setVoice_options_preserve_invariant (s : TTSState) (n : String)
    (hn : n ∈ voiceOptions s) :
    (setVoiceFromInput s n).selectedVoice = n ∧
    (setVoiceFromInput s n).selectedVoice ∈
      (lookupG s.languages s.selectedLanguage).map Voice.name := by
  refine ⟨rfl, ?_⟩
  have he := mem_voiceOptions_eq s n hn
  show n ∈ _
  exact he ▸ hn

/-- Witness for the amended claim C4 at a concrete input. -/
theorem setVoice_options_preserve_invariant_witness :
    (("Alice" : String) ∈ voiceOptions enSelectedState) ∧
    ((setVoiceFromInput enSelectedState ("Alice")).selectedVoice = "Alice" ∧
      (setVoiceFromInput enSelectedState ("Alice")).selectedVoice ∈
        (lookupG enSelectedState.languages enSelectedState.selectedLanguage).map Voice.name) :=
  ⟨by decide, setVoice_options_preserve_invariant enSelectedState ("Alice") (by decide)⟩

/-! Rate and pitch: claim C5. -/

/-- Claim C5 counterexample: the rate and pitch handlers store the parsed
value without clamping: an input of 3.5 is stored as 3.5, not 2.0, and an
input of 0.1 is stored as 0.1, not 0.5. -/
theorem rate_pitch_not_clamped :
    (setRateFromInput initState (7/2)).rate = 7/2 ∧ ((7 : Rat)/2 ≠ 2) ∧
    (setPitchFromInput initState (1/10)).pitch = 1/10 ∧ ((1 : Rat)/10 ≠ 1/2) := by
  refine ⟨rfl, by norm_num, rfl, by norm_num⟩

/-- Claim C5 (amended): the handlers store the delivered value unchanged
and never produce an error; the sliders declare min 0.5 and max 2.0, so
every value the range controls can deliver lies within that range and is
stored within it, but the handlers themselves perform no clamping, so an
out-of-range value reaching them is stored as is. -/
theorem rate_pitch_store_in_range (s : TTSState) (x y : Rat)
    (hx1 : rateMin ≤ x) (hx2 : x ≤ rateMax)
    (hy1 : pitchMin ≤ y) (hy2 : y ≤ pitchMax) :
    (setRateFromInput s x).rate = x ∧
    rateMin ≤ (setRateFromInput s x).rate ∧ (setRateFromInput s x).rate ≤ rateMax ∧
    (setPitchFromInput s y).pitch = y ∧
    pitchMin ≤ (setPitchFromInput s y).pitch ∧ (setPitchFromInput s y).pitch ≤ pitchMax :=
  ⟨rfl, hx1, hx2, rfl, hy1, hy2⟩

/-- Witness for the amended claim C5 at a concrete input. -/
theorem rate_pitch_store_in_range_witness :
    (rateMin ≤ rateMin ∧ rateMin ≤ rateMax ∧ pitchMin ≤ pitchMin ∧ pitchMin ≤ pitchMax) ∧
    ((setRateFromInput initState rateMin).rate = rateMin ∧
      rateMin ≤ (setRateFromInput initState rateMin).rate ∧
      (setRateFromInput initState rateMin).rate ≤ rateMax ∧
      (setPitchFromInput initState pitchMin).pitch = pitchMin ∧
      pitchMin ≤ (setPitchFromInput initState pitchMin).pitch ∧
      (setPitchFromInput initState pitchMin).pitch ≤ pitchMax) :=
  ⟨⟨le_refl rateMin, one_half_lt_one.le.trans one_le_two,
      le_refl pitchMin, one_half_lt_one.le.trans one_le_two⟩,
    rate_pitch_store_in_range initState rateMin pitchMin
      (le_refl rateMin) (one_half_lt_one.le.trans one_le_two)
      (le_refl pitchMin) (one_half_lt_one.le.trans one_le_two)⟩

/-! Playback: claims C6, C7, C9, C10. -/

/-- A sample utterance already being produced by the capability. -/
def uW : Utterance := { text := "hi", voice := none, rate := 1, pitch := 1 }

/-- A full state whose capability is present and already speaking. -/
def speakingState : FullState := { comp := initState, synth := some ⟨[uW]⟩ }

/-- Claim C6: with the capability present and text non-empty, whenever
the capability reports it is already producing audio, speak issues a
cancel before submitting the new utterance, leaving it the only pending
one; and two speaks in immediate succession leave exactly one current
utterance, the second one, the first being superseded. -/
theorem speak_at_most_one_active (fs : FullState) (st : SynthState)
    (hs : fs.synth = some st) (ht : fs.comp.text ≠ "") :
    (st.speaking = true →
      (speak fs).2 = [SynthEvent.cancel, SynthEvent.speakReq (mkUtterance fs.comp)] ∧
      (speak fs).1.synth = some ⟨[mkUtterance fs.comp]⟩) ∧
    (speak (speak fs).1).1.synth = some ⟨[mkUtterance fs.comp]⟩ := by
  obtain ⟨comp, synth⟩ := fs
  simp only at hs ht
  subst hs
  constructor
  · intro hsp
    simp [speak, ht, hsp, synthCancel, synthSubmit]
  · by_cases hsp : st.speaking = true
    · simp [speak, ht, hsp, synthCancel, synthSubmit, SynthState.speaking, mkUtterance]
    · simp only [Bool.not_eq_true] at hsp
      simp [speak, ht, hsp, synthCancel, synthSubmit, SynthState.speaking, mkUtterance]

/-- Witness for claim C6 at a concrete input. -/
theorem speak_at_most_one_active_witness :
    (speakingState.synth = some ⟨[uW]⟩ ∧ speakingState.comp.text ≠ "") ∧
    ((SynthState.speaking ⟨[uW]⟩ = true →
      (speak speakingState).2 =
        [SynthEvent.cancel, SynthEvent.speakReq (mkUtterance speakingState.comp)] ∧
      (speak speakingState).1.synth = some ⟨[mkUtterance speakingState.comp]⟩) ∧
    (speak (speak speakingState).1).1.synth = some ⟨[mkUtterance speakingState.comp]⟩) :=
  ⟨⟨rfl, by decide⟩, speak_at_most_one_active speakingState ⟨[uW]⟩ rfl (by decide)⟩

/-- Claim C7: with the capability present, stopSpeaking always leaves the
playback status idle, issues exactly one cancel, and leaves nothing
pending, whether or not an utterance was active, and without waiting for
any callback. -/
theorem stopSpeaking_idle (fs : FullState) (st : SynthState)
    (hs : fs.synth = some st) :
    (stopSpeaking fs).1.comp.isSpeaking = false ∧
    (stopSpeaking fs).1.synth = some ⟨[]⟩ ∧
    (stopSpeaking fs).2 = [SynthEvent.cancel] := by
  obtain ⟨comp, synth⟩ := fs
  simp only at hs
  subst hs
  simp [stopSpeaking, synthCancel]

/-- Witness for claim C7 at a concrete input. -/
theorem stopSpeaking_idle_witness :
    (speakingState.synth = some ⟨[uW]⟩) ∧
    ((stopSpeaking speakingState).1.comp.isSpeaking = false ∧
      (stopSpeaking speakingState).1.synth = some ⟨[]⟩ ∧
      (stopSpeaking speakingState).2 = [SynthEvent.cancel]) :=
  ⟨rfl, stopSpeaking_idle speakingState ⟨[uW]⟩ rfl⟩

/-- Claim C9: speak with empty text or an absent capability reference is
a complete no-op: the state is returned unchanged in every field and no
call at all reaches the capability. -/
theorem speak_noop (fs : FullState) (h : fs.comp.text = "" ∨ fs.synth = none) :
    speak fs = (fs, []) := by
  rcases h with h | h
  · cases hsy : fs.synth with
    | none => simp [speak, hsy]
    | some st => simp [speak, hsy, h]
  · simp [speak, h]

/-- A full state whose text is empty. -/
def emptyTextState : FullState :=
  { comp := { initState with text := "" }, synth := some ⟨[]⟩ }

/-- Witness for claim C9 at a concrete input. -/
theorem speak_noop_witness :
    (emptyTextState.comp.text = "" ∨ emptyTextState.synth = none) ∧
    speak emptyTextState = (emptyTextState, []) :=
  ⟨Or.inl rfl, speak_noop emptyTextState (Or.inl rfl)⟩

/-- Claim C10: when the selected voice name matches no descriptor in the
voices list, speak still submits exactly one utterance carrying the
current text, rate and pitch with no voice reference, the mismatch is
not rejected, and no error is recorded. -/
theorem speak_unknown_voice_uses_default (fs : FullState) (st : SynthState)
    (hs : fs.synth = some st) (ht : fs.comp.text ≠ "")
    (hv : fs.comp.voices.find? (fun v => v.name == fs.comp.selectedVoice) = none) :
    (speak fs).2 =
      (if st.speaking then [SynthEvent.cancel] else []) ++
        [SynthEvent.speakReq
          { text := fs.comp.text, voice := none,
            rate := fs.comp.rate, pitch := fs.comp.pitch }] ∧
    (speak fs).1.comp.apiError = none := by
  obtain ⟨comp, synth⟩ := fs
  simp only at hs ht hv
  subst hs
  simp [speak, ht, mkUtterance, hv]

/-- A full state whose selected voice name matches no descriptor. -/
def ghostVoiceState : FullState :=
  { comp := { initState with voices := [aliceV], selectedVoice := "Ghost" },
    synth := some ⟨[]⟩ }

/-- Witness for claim C10 at a concrete input. -/
theorem speak_unknown_voice_uses_default_witness :
    (ghostVoiceState.synth = some ⟨[]⟩ ∧ ghostVoiceState.comp.text ≠ "" ∧
      ghostVoiceState.comp.voices.find?
        (fun v => v.name == ghostVoiceState.comp.selectedVoice) = none) ∧
    ((speak ghostVoiceState).2 =
      (if SynthState.speaking ⟨[]⟩ then [SynthEvent.cancel] else []) ++
        [SynthEvent.speakReq
          { text := ghostVoiceState.comp.text, voice := none,
            rate := ghostVoiceState.comp.rate, pitch := ghostVoiceState.comp.pitch }] ∧
      (speak ghostVoiceState).1.comp.apiError = none) :=
  ⟨⟨rfl, by decide, by decide⟩,
    speak_unknown_voice_uses_default ghostVoiceState ⟨[]⟩ rfl (by decide) (by decide)⟩

/-! Voice discovery fallback: claim C8. -/

/-- Claim C8: when the capability yields zero voices and never fires a
readiness notification, the initial read leaves the state loading, and
once the fallback timeout elapses loading is cleared and a descriptive
error message is recorded, rather than the state staying in loading
indefinitely; the speak button stays disabled. The stale values captured
by the mount effect closures are the mount values: loading true, no
voices, no error. -/
theorem timeout_clears_loading_and_reports (dn : String → Option String) :
    (loadVoices dn true [] initState).loadingVoices = true ∧
    (timeoutHandler dn true [] none [] (loadVoices dn true [] initState)).loadingVoices
      = false ∧
    (timeoutHandler dn true [] none [] (loadVoices dn true [] initState)).apiError
      = some timeoutMsg ∧
    speakButtonDisabled (timeoutHandler dn true [] none [] (loadVoices dn true [] initState))
      = true :=
  ⟨rfl, rfl, rfl, rfl⟩
